import Mathlib

/-!
Verification of the `SortedSet` collection (from `sorted_set.py`).

The element type `T` of the Python code is modelled as `Int`, a representative
totally ordered type with decidable equality, matching the spec's sole
requirement on `T` (total order with consistent equality).

Python's `sorted(set(items))` is modelled by `sortedDedup`: repeated ordered
insertion, skipping duplicates, which yields exactly the sorted duplicate-free
list of the input's elements.  Python exceptions are modelled by the
`Except PyErr` monad; an operation that cannot raise is a plain function.
-/

/-- The Python exceptions that the `SortedSet` code can raise:
`ValueError` (the spec's `NotFound`), `IndexError` (the spec's
`IndexOutOfRange`), `AttributeError` (raised when an attribute such as
`_items` is read on an object lacking it), and `AssertionError`
(from the `assert self._is_unique_and_sorted()` statements). -/
inductive PyErr where
  | valueError
  | indexError
  | attributeError
  | assertionError
deriving DecidableEq, Repr

/-- Insert `x` into a strictly ascending list, keeping it strictly ascending:
a duplicate is dropped.  Building block for the model of `sorted(set(...))`. -/
def insertUnique (x : Int) : List Int → List Int
  | [] => [x]
  | y :: ys =>
    if x < y then x :: y :: ys
    else if x = y then y :: ys
    else y :: insertUnique x ys

/-- Model of Python's `sorted(set(l))`: the strictly ascending,
duplicate-free list of the elements of `l`. -/
def sortedDedup : List Int → List Int
  | [] => []
  | x :: xs => insertUnique x (sortedDedup xs)

/-- The `SortedSet` record: its single attribute is the backing list
`_items` (called `items` here). -/
structure SortedSet where
  items : List Int
deriving DecidableEq, Repr

/-- `SortedSet(iterable)`: the branch of `__init__` taking an input
iterable; stores `sorted(set(items))`. -/
def SortedSet.ofList (l : List Int) : SortedSet := ⟨sortedDedup l⟩

/-- `SortedSet()`: the no-argument branch of `__init__` (`items is None`);
stores the empty list. -/
def SortedSet.empty : SortedSet := ⟨[]⟩

/-- `SortedSet._is_unique_and_sorted`: checks that every adjacent pair of
stored items is strictly increasing (`all(self[i] < self[i+1] ...)`). -/
def is_unique_and_sorted : List Int → Bool
  | x :: y :: rest => decide (x < y) && is_unique_and_sorted (y :: rest)
  | _ => true

/-- The spec's invariant I1: the stored items are pairwise strictly
increasing in list order (equivalent to the adjacent-pairs form for a
transitive order). -/
def SortedSet.Invariant (s : SortedSet) : Prop := s.items.Pairwise (· < ·)

instance (s : SortedSet) : Decidable s.Invariant := by
  unfold SortedSet.Invariant; infer_instance

/-- The loop of CPython's `bisect.bisect_left`: binary search narrowing
`[lo, hi)` until `lo = hi`, moving `lo` past positions holding values
below `x` and `hi` down to positions holding values not below `x`. -/
def bisect_loop (a : List Int) (x : Int) (lo hi : Nat) : Nat :=
  if lo < hi then
    if a.getD ((lo + hi) / 2) 0 < x then bisect_loop a x ((lo + hi) / 2 + 1) hi
    else bisect_loop a x lo ((lo + hi) / 2)
  else lo
termination_by hi - lo
decreasing_by
  all_goals simp_wf
  all_goals omega

/-- `bisect.bisect_left(a, x)`: binary search over the whole list. -/
def bisect_left (a : List Int) (x : Int) : Nat := bisect_loop a x 0 a.length

/-- `SortedSet.index`: asserts the sortedness invariant, locates `item` by
`bisect_left`, returns the position if the item is there, and raises
`ValueError` otherwise. -/
def SortedSet.index (s : SortedSet) (x : Int) : Except PyErr Nat :=
  if is_unique_and_sorted s.items then
    let i := bisect_left s.items x
    if i ≠ s.items.length ∧ s.items.getD i 0 = x then Except.ok i
    else Except.error PyErr.valueError
  else Except.error PyErr.assertionError

/-- `SortedSet.__contains__`: calls `index` and converts `ValueError` to
`False`; any other exception (only `AssertionError` is possible) would
propagate. -/
def SortedSet.contains (s : SortedSet) (x : Int) : Except PyErr Bool :=
  match s.index x with
  | Except.ok _ => Except.ok true
  | Except.error PyErr.valueError => Except.ok false
  | Except.error e => Except.error e

/-- `SortedSet.count`: asserts the invariant, then converts the membership
test to an integer (`int(item in self)`). -/
def SortedSet.count (s : SortedSet) (x : Int) : Except PyErr Nat :=
  if is_unique_and_sorted s.items then
    match s.contains x with
    | Except.ok b => Except.ok (if b then 1 else 0)
    | Except.error e => Except.error e
  else Except.error PyErr.assertionError

/-- A Python object handed to `__add__` or `__eq__` as the right operand:
either another `SortedSet`, or a plain list of `T` (standing for any
non-`SortedSet` iterable, which has no `_items` attribute). -/
inductive PyObj where
  | sset (s : SortedSet)
  | plist (l : List Int)
deriving DecidableEq, Repr

/-- `SortedSet.__add__`: builds `SortedSet(chain(self._items, rhs._items))`.
Reading `rhs._items` on a non-`SortedSet` operand raises `AttributeError`
(the arguments of `chain` are evaluated eagerly). -/
def SortedSet.add (s : SortedSet) (rhs : PyObj) : Except PyErr SortedSet :=
  match rhs with
  | PyObj.sset t => Except.ok (SortedSet.ofList (s.items ++ t.items))
  | PyObj.plist _ => Except.error PyErr.attributeError

/-- `SortedSet.__eq__` as observed through `==`: between two `SortedSet`s it
compares the `_items` lists element-wise; against a non-`SortedSet` it
returns `NotImplemented`, upon which Python falls back to the reflected
comparison and finally to identity, yielding `False` for objects of
distinct types. -/
def SortedSet.eqPy (s : SortedSet) (rhs : PyObj) : Bool :=
  match rhs with
  | PyObj.sset t => decide (s.items = t.items)
  | PyObj.plist _ => false

/-- `SortedSet.__ne__` as observed through `!=`: element-wise list
inequality between two `SortedSet`s; `True` against a non-`SortedSet`
(`NotImplemented` fallback to negated identity). -/
def SortedSet.nePy (s : SortedSet) (rhs : PyObj) : Bool :=
  match rhs with
  | PyObj.sset t => decide (s.items ≠ t.items)
  | PyObj.plist _ => true

/-- `SortedSet.__mul__`: `self if rhs > 0 else SortedSet()`. -/
def SortedSet.mul (s : SortedSet) (n : Int) : SortedSet :=
  if n > 0 then s else SortedSet.empty

/-- `SortedSet.__rmul__`: delegates to `__mul__` (`self * lhs`). -/
def SortedSet.rmul (s : SortedSet) (n : Int) : SortedSet := s.mul n

/-- `SortedSet.__getitem__` on an integer index: Python list indexing —
a negative index is first shifted by the length, then the index must fall
in `[0, len)` or `IndexError` is raised. -/
def SortedSet.getitem_int (s : SortedSet) (i : Int) : Except PyErr Int :=
  let n : Int := s.items.length
  let j : Int := if i < 0 then i + n else i
  if 0 ≤ j ∧ j < n then Except.ok (s.items.getD j.toNat 0)
  else Except.error PyErr.indexError

/-- Resolution of one bound of a Python slice with positive step: a missing
bound takes the default, a negative bound is shifted by the length and
clamped below at 0, a non-negative bound is clamped above at the length. -/
def pySliceIndex (n : Nat) (dflt : Nat) : Option Int → Nat
  | none => dflt
  | some i => if i < 0 then (max (i + n) 0).toNat else min i.toNat n

/-- `SortedSet.__getitem__` on a slice `[start:stop]` (step `None`): Python
list slicing — the resolved, clamped half-open index range is copied out
into a plain list. -/
def SortedSet.slice (s : SortedSet) (start stop : Option Int) : List Int :=
  let n := s.items.length
  let lo := pySliceIndex n 0 start
  let hi := pySliceIndex n n stop
  (s.items.take hi).drop lo

/-- Run a Python generator expression `(v for v in l if p v)` through to a
list, where the filter predicate may raise: the first exception aborts the
whole construction. -/
def exceptFilter (p : Int → Except PyErr Bool) : List Int → Except PyErr (List Int)
  | [] => Except.ok []
  | x :: xs =>
    match p x with
    | Except.ok b => (exceptFilter p xs).map (fun r => if b then x :: r else r)
    | Except.error e => Except.error e

/-- Run a Python loop `for v in l: if not p v: return False` / `return True`
where the test may raise: the first exception aborts, a failing test
short-circuits to `False`. -/
def exceptAll (p : Int → Except PyErr Bool) : List Int → Except PyErr Bool
  | [] => Except.ok true
  | x :: xs =>
    match p x with
    | Except.ok true => exceptAll p xs
    | Except.ok false => Except.ok false
    | Except.error e => Except.error e

/-- `collections.abc.Set.__and__` (inherited by `SortedSet`):
`self._from_iterable(value for value in other if value in self)`, where
`_from_iterable` is the `SortedSet` constructor. -/
def SortedSet.and_ (s other : SortedSet) : Except PyErr SortedSet :=
  (exceptFilter (fun v => s.contains v) other.items).map SortedSet.ofList

/-- `collections.abc.Set.__or__` (inherited by `SortedSet`): feeds the
chained elements of both operands to the `SortedSet` constructor. -/
def SortedSet.or_ (s other : SortedSet) : SortedSet :=
  SortedSet.ofList (s.items ++ other.items)

/-- `collections.abc.Set.__sub__` (inherited by `SortedSet`):
`self._from_iterable(value for value in self if value not in other)`. -/
def SortedSet.sub (s other : SortedSet) : Except PyErr SortedSet :=
  (exceptFilter (fun v => (other.contains v).map (fun b => !b)) s.items).map
    SortedSet.ofList

/-- `collections.abc.Set.__xor__` (inherited by `SortedSet`):
`(self - other) | (other - self)`. -/
def SortedSet.xor_ (s other : SortedSet) : Except PyErr SortedSet := do
  let a ← s.sub other
  let b ← other.sub s
  return a.or_ b

/-- `collections.abc.Set.__le__` (inherited by `SortedSet`): `False` when
`self` is longer than `other`, else checks every element of `self` for
membership in `other`. -/
def SortedSet.le (s other : SortedSet) : Except PyErr Bool :=
  if s.items.length > other.items.length then Except.ok false
  else exceptAll (fun v => other.contains v) s.items

/-- `collections.abc.Set.__lt__` (inherited by `SortedSet`):
`len(self) < len(other) and self.__le__(other)`. -/
def SortedSet.lt (s other : SortedSet) : Except PyErr Bool :=
  if s.items.length < other.items.length then s.le other else Except.ok false

/-- `collections.abc.Set.__ge__` (inherited by `SortedSet`): `False` when
`self` is shorter than `other`, else checks every element of `other` for
membership in `self`. -/
def SortedSet.ge (s other : SortedSet) : Except PyErr Bool :=
  if s.items.length < other.items.length then Except.ok false
  else exceptAll (fun v => s.contains v) other.items

/-- `collections.abc.Set.__gt__` (inherited by `SortedSet`):
`len(self) > len(other) and self.__ge__(other)`. -/
def SortedSet.gt (s other : SortedSet) : Except PyErr Bool :=
  if s.items.length > other.items.length then s.ge other else Except.ok false

/-- `collections.abc.Set.isdisjoint` (inherited by `SortedSet`): iterates
the other iterable, returning `False` at the first value found in `self`. -/
def SortedSet.isdisjoint (s : SortedSet) (other : List Int) : Except PyErr Bool :=
  exceptAll (fun v => (s.contains v).map (fun b => !b)) other

/-- `SortedSet.intersection(iterable)`: `self & SortedSet(iterable)`. -/
def SortedSet.intersection (s : SortedSet) (other : List Int) : Except PyErr SortedSet :=
  s.and_ (SortedSet.ofList other)

/-- `SortedSet.union(iterable)`: `self | SortedSet(iterable)`. -/
def SortedSet.union (s : SortedSet) (other : List Int) : SortedSet :=
  s.or_ (SortedSet.ofList other)

/-- `SortedSet.symmetric_difference(iterable)`: `self ^ SortedSet(iterable)`. -/
def SortedSet.symmetric_difference (s : SortedSet) (other : List Int) :
    Except PyErr SortedSet :=
  s.xor_ (SortedSet.ofList other)

/-- `SortedSet.difference(iterable)`: `self - SortedSet(iterable)`. -/
def SortedSet.difference (s : SortedSet) (other : List Int) : Except PyErr SortedSet :=
  s.sub (SortedSet.ofList other)

/-- `SortedSet.issubset(iterable)`: `self <= SortedSet(iterable)`. -/
def SortedSet.issubset (s : SortedSet) (other : List Int) : Except PyErr Bool :=
  s.le (SortedSet.ofList other)

/-- `SortedSet.issuperset(iterable)`: `self >= SortedSet(iterable)`. -/
def SortedSet.issuperset (s : SortedSet) (other : List Int) : Except PyErr Bool :=
  s.ge (SortedSet.ofList other)

/-- The `SortedSet`s reachable through the public interface: built by the
constructor (with or without an argument) or returned by an operation that
produces a `SortedSet`. -/
inductive SortedSet.Reachable : SortedSet → Prop where
  | empty : SortedSet.Reachable SortedSet.empty
  | ofList (l : List Int) : SortedSet.Reachable (SortedSet.ofList l)
  | add (s : SortedSet) (rhs : PyObj) (u : SortedSet) :
      SortedSet.Reachable s → s.add rhs = Except.ok u → SortedSet.Reachable u
  | mul (s : SortedSet) (n : Int) :
      SortedSet.Reachable s → SortedSet.Reachable (s.mul n)
  | rmul (s : SortedSet) (n : Int) :
      SortedSet.Reachable s → SortedSet.Reachable (s.rmul n)
  | and_ (s t u : SortedSet) :
      SortedSet.Reachable s → SortedSet.Reachable t →
      s.and_ t = Except.ok u → SortedSet.Reachable u
  | or_ (s t : SortedSet) :
      SortedSet.Reachable s → SortedSet.Reachable t →
      SortedSet.Reachable (s.or_ t)
  | sub (s t u : SortedSet) :
      SortedSet.Reachable s → SortedSet.Reachable t →
      s.sub t = Except.ok u → SortedSet.Reachable u
  | xor_ (s t u : SortedSet) :
      SortedSet.Reachable s → SortedSet.Reachable t →
      s.xor_ t = Except.ok u → SortedSet.Reachable u
  | intersection (s : SortedSet) (other : List Int) (u : SortedSet) :
      SortedSet.Reachable s → s.intersection other = Except.ok u →
      SortedSet.Reachable u
  | union (s : SortedSet) (other : List Int) :
      SortedSet.Reachable s → SortedSet.Reachable (s.union other)
  | symmetric_difference (s : SortedSet) (other : List Int) (u : SortedSet) :
      SortedSet.Reachable s → s.symmetric_difference other = Except.ok u →
      SortedSet.Reachable u
  | difference (s : SortedSet) (other : List Int) (u : SortedSet) :
      SortedSet.Reachable s → s.difference other = Except.ok u →
      SortedSet.Reachable u

/-! ### Properties of the construction model -/

theorem mem_insertUnique (x y : Int) (l : List Int) :
    y ∈ insertUnique x l ↔ y = x ∨ y ∈ l := by
  induction l with
  | nil => simp [insertUnique]
  | cons z zs ih =>
    rw [insertUnique]
    split
    · simp only [List.mem_cons]
    · split
      · rename_i h1 h2
        subst h2
        simp only [List.mem_cons]
        tauto
      · simp only [List.mem_cons, ih]
        tauto

theorem pairwise_insertUnique (x : Int) (l : List Int)
    (h : l.Pairwise (· < ·)) : (insertUnique x l).Pairwise (· < ·) := by
  induction l with
  | nil => simp [insertUnique]
  | cons z zs ih =>
    rw [List.pairwise_cons] at h
    obtain ⟨hz, hzs⟩ := h
    rw [insertUnique]
    split
    · rename_i hx
      rw [List.pairwise_cons]
      refine ⟨fun y hy => ?_, List.pairwise_cons.mpr ⟨hz, hzs⟩⟩
      rcases List.mem_cons.mp hy with rfl | hy2
      · exact hx
      · exact lt_trans hx (hz y hy2)
    · split
      · exact List.pairwise_cons.mpr ⟨hz, hzs⟩
      · rename_i h1 h2
        rw [List.pairwise_cons]
        refine ⟨fun y hy => ?_, ih hzs⟩
        rcases (mem_insertUnique x y zs).mp hy with rfl | hy2
        · omega
        · exact hz y hy2

theorem sortedDedup_pairwise (l : List Int) : (sortedDedup l).Pairwise (· < ·) := by
  induction l with
  | nil => simp [sortedDedup]
  | cons x xs ih => exact pairwise_insertUnique x _ ih

theorem mem_sortedDedup (l : List Int) (x : Int) :
    x ∈ sortedDedup l ↔ x ∈ l := by
  induction l with
  | nil => simp [sortedDedup]
  | cons y ys ih => simp [sortedDedup, mem_insertUnique, ih]

theorem ofList_invariant (l : List Int) : (SortedSet.ofList l).Invariant :=
  sortedDedup_pairwise l

theorem empty_invariant : SortedSet.empty.Invariant := List.Pairwise.nil

theorem mem_ofList (l : List Int) (x : Int) :
    x ∈ (SortedSet.ofList l).items ↔ x ∈ l := mem_sortedDedup l x

theorem is_unique_and_sorted_iff (l : List Int) :
    is_unique_and_sorted l = true ↔ l.Chain' (· < ·) := by
  induction l with
  | nil => simp [is_unique_and_sorted]
  | cons x xs ih =>
    cases xs with
    | nil => simp [is_unique_and_sorted]
    | cons y ys =>
      rw [is_unique_and_sorted, List.chain'_cons, Bool.and_eq_true]
      exact and_congr (by simp) ih

theorem is_unique_and_sorted_of_invariant (s : SortedSet) (h : s.Invariant) :
    is_unique_and_sorted s.items = true := by
  rw [is_unique_and_sorted_iff, List.chain'_iff_pairwise]
  exact h

/-- Two strictly ascending lists with the same members are equal: the
stored representation of a reachable `SortedSet` is canonical. -/
theorem pairwise_eq_of_mem_iff :
    ∀ {l m : List Int}, l.Pairwise (· < ·) → m.Pairwise (· < ·) →
      (∀ x, x ∈ l ↔ x ∈ m) → l = m := by
  intro l
  induction l with
  | nil =>
    intro m _ _ hmem
    cases m with
    | nil => rfl
    | cons b bs => exact absurd ((hmem b).mpr (List.mem_cons_self b bs)) (List.not_mem_nil b)
  | cons a as ih =>
    intro m hl hm hmem
    cases m with
    | nil => exact absurd ((hmem a).mp (List.mem_cons_self a as)) (List.not_mem_nil a)
    | cons b bs =>
      rw [List.pairwise_cons] at hl hm
      obtain ⟨ha, has⟩ := hl
      obtain ⟨hb, hbs⟩ := hm
      have hab : a = b := by
        rcases List.mem_cons.mp ((hmem a).mp (List.mem_cons_self a as)) with h1 | h1
        · exact h1
        · rcases List.mem_cons.mp ((hmem b).mpr (List.mem_cons_self b bs)) with h2 | h2
          · exact h2.symm
          · have hba := hb a h1
            have hab2 := ha b h2
            omega
      subst hab
      have htails : ∀ x, x ∈ as ↔ x ∈ bs := by
        intro x
        constructor
        · intro hx
          rcases List.mem_cons.mp ((hmem x).mp (List.mem_cons_of_mem a hx)) with rfl | h2
          · exact absurd (ha x hx) (lt_irrefl x)
          · exact h2
        · intro hx
          rcases List.mem_cons.mp ((hmem x).mpr (List.mem_cons_of_mem a hx)) with rfl | h2
          · exact absurd (hb x hx) (lt_irrefl x)
          · exact h2
      rw [ih has hbs htails]

theorem invariant_nodup (s : SortedSet) (h : s.Invariant) : s.items.Nodup :=
  h.imp (fun hlt => ne_of_lt hlt)

/-- A duplicate-free list contained in another list is no longer than it. -/
theorem nodup_length_le_of_subset (l m : List Int) (hl : l.Nodup)
    (hsub : ∀ x ∈ l, x ∈ m) : l.length ≤ m.length := by
  have h1 : l.toFinset ⊆ m.toFinset := by
    intro x hx
    rw [List.mem_toFinset] at hx ⊢
    exact hsub x hx
  calc l.length = l.toFinset.card := (List.toFinset_card_of_nodup hl).symm
    _ ≤ m.toFinset.card := Finset.card_le_card h1
    _ ≤ m.length := List.toFinset_card_le m

/-! ### Correctness of the binary search and of `index`, `contains`, `count` -/

theorem getD_get (l : List Int) (n : Nat) (hn : n < l.length) :
    l.getD n 0 = l.get ⟨n, hn⟩ := by
  rw [List.getD_eq_getElem l 0 hn, List.get_eq_getElem]

theorem pairwise_getD_mono (a : List Int) (h : a.Pairwise (· < ·))
    (i j : Nat) (hij : i ≤ j) (hj : j < a.length) :
    a.getD i 0 ≤ a.getD j 0 := by
  rcases Nat.eq_or_lt_of_le hij with rfl | hlt
  · exact le_refl _
  · have hi : i < a.length := lt_trans hlt hj
    rw [getD_get a i hi, getD_get a j hj]
    exact le_of_lt (List.pairwise_iff_get.mp h ⟨i, hi⟩ ⟨j, hj⟩ hlt)

theorem bisect_loop_spec (a : List Int) (x : Int)
    (hmono : ∀ i j, i ≤ j → j < a.length → a.getD i 0 ≤ a.getD j 0) :
    ∀ n lo hi, hi - lo = n → lo ≤ hi → hi ≤ a.length →
    (∀ j, j < lo → a.getD j 0 < x) →
    (∀ j, hi ≤ j → j < a.length → x ≤ a.getD j 0) →
    lo ≤ bisect_loop a x lo hi ∧ bisect_loop a x lo hi ≤ hi ∧
    (∀ j, j < bisect_loop a x lo hi → a.getD j 0 < x) ∧
    (∀ j, bisect_loop a x lo hi ≤ j → j < a.length → x ≤ a.getD j 0) := by
  intro n
  induction n using Nat.strong_induction_on with
  | _ n ih =>
    intro lo hi hn hlohi hhi hbelow habove
    rw [bisect_loop]
    split
    · rename_i hlt
      split
      · rename_i hmidlt
        have hrec := ih (hi - ((lo + hi) / 2 + 1)) (by omega)
          ((lo + hi) / 2 + 1) hi rfl (by omega) hhi ?_ habove
        · exact ⟨by omega, hrec.2.1, hrec.2.2.1, hrec.2.2.2⟩
        · intro j hj
          rcases Nat.lt_succ_iff_lt_or_eq.mp hj with hj2 | rfl
          · calc a.getD j 0 ≤ a.getD ((lo + hi) / 2) 0 :=
                  hmono j _ (by omega) (by omega)
              _ < x := hmidlt
          · exact hmidlt
      · rename_i hmidge
        have hxle : x ≤ a.getD ((lo + hi) / 2) 0 := le_of_not_lt hmidge
        have hrec := ih (((lo + hi) / 2) - lo) (by omega)
          lo ((lo + hi) / 2) rfl (by omega) (by omega) hbelow ?_
        · exact ⟨hrec.1, by omega, hrec.2.2.1, hrec.2.2.2⟩
        · intro j hj hj2
          calc x ≤ a.getD ((lo + hi) / 2) 0 := hxle
            _ ≤ a.getD j 0 := hmono _ j hj hj2
    · rename_i hge
      have : lo = hi := by omega
      subst this
      exact ⟨le_refl _, le_refl _, hbelow, habove⟩

theorem bisect_left_spec (a : List Int) (x : Int) (h : a.Pairwise (· < ·)) :
    bisect_left a x ≤ a.length ∧
    (∀ j, j < bisect_left a x → a.getD j 0 < x) ∧
    (∀ j, bisect_left a x ≤ j → j < a.length → x ≤ a.getD j 0) := by
  have hspec := bisect_loop_spec a x (pairwise_getD_mono a h) a.length 0 a.length
    rfl (Nat.zero_le _) (le_refl _) (fun j hj => absurd hj (Nat.not_lt_zero j))
    (fun j hj hj2 => absurd hj2 (by omega))
  exact ⟨hspec.2.1, hspec.2.2.1, hspec.2.2.2⟩

theorem index_ok_of_mem (s : SortedSet) (h : s.Invariant) (x : Int)
    (hx : x ∈ s.items) :
    s.index x = Except.ok (bisect_left s.items x) ∧
    s.items.getD (bisect_left s.items x) 0 = x := by
  obtain ⟨hle, hbelow, habove⟩ := bisect_left_spec s.items x h
  obtain ⟨⟨k, hk⟩, hget⟩ := List.mem_iff_get.mp hx
  have hkd : s.items.getD k 0 = x := by
    rw [getD_get s.items k hk]
    exact hget
  have hki : bisect_left s.items x ≤ k := by
    by_contra hcon
    have := hbelow k (by omega)
    omega
  have hilt : bisect_left s.items x < s.items.length := by omega
  have hgi : s.items.getD (bisect_left s.items x) 0 = x := by
    have h1 := habove (bisect_left s.items x) (le_refl _) hilt
    have h2 := pairwise_getD_mono s.items h (bisect_left s.items x) k hki hk
    omega
  refine ⟨?_, hgi⟩
  rw [SortedSet.index, if_pos (is_unique_and_sorted_of_invariant s h)]
  rw [if_pos ⟨by omega, hgi⟩]

theorem index_error_of_not_mem (s : SortedSet) (h : s.Invariant) (x : Int)
    (hx : x ∉ s.items) :
    s.index x = Except.error PyErr.valueError := by
  rw [SortedSet.index, if_pos (is_unique_and_sorted_of_invariant s h)]
  rw [if_neg]
  intro ⟨h1, h2⟩
  apply hx
  have hlt : bisect_left s.items x < s.items.length := by
    have := (bisect_left_spec s.items x h).1
    omega
  rw [← h2, getD_get s.items _ hlt]
  exact List.get_mem s.items _ hlt

theorem contains_ok (s : SortedSet) (h : s.Invariant) (x : Int) :
    s.contains x = Except.ok (decide (x ∈ s.items)) := by
  by_cases hx : x ∈ s.items
  · rw [SortedSet.contains, (index_ok_of_mem s h x hx).1]
    simp [hx]
  · rw [SortedSet.contains, index_error_of_not_mem s h x hx]
    simp [hx]

theorem count_ok (s : SortedSet) (h : s.Invariant) (x : Int) :
    s.count x = Except.ok (if x ∈ s.items then 1 else 0) := by
  rw [SortedSet.count, if_pos (is_unique_and_sorted_of_invariant s h),
    contains_ok s h x]
  by_cases hx : x ∈ s.items <;> simp [hx]

/-! ### Collapsing the exception-aware iteration when no test raises -/

theorem exceptFilter_eq (p : Int → Except PyErr Bool) (q : Int → Bool)
    (l : List Int) (h : ∀ x ∈ l, p x = Except.ok (q x)) :
    exceptFilter p l = Except.ok (l.filter q) := by
  induction l with
  | nil => rfl
  | cons x xs ih =>
    rw [exceptFilter, h x (List.mem_cons_self x xs),
      ih (fun y hy => h y (List.mem_cons_of_mem x hy))]
    cases hq : q x <;> simp [List.filter_cons, hq, Except.map]

theorem exceptAll_eq (p : Int → Except PyErr Bool) (q : Int → Bool)
    (l : List Int) (h : ∀ x ∈ l, p x = Except.ok (q x)) :
    exceptAll p l = Except.ok (l.all q) := by
  induction l with
  | nil => rfl
  | cons x xs ih =>
    rw [exceptAll, h x (List.mem_cons_self x xs)]
    cases hq : q x
    · simp [hq]
    · rw [ih (fun y hy => h y (List.mem_cons_of_mem x hy))]
      simp [hq]

/-! ### The set-algebra operations under the invariant -/

theorem and_ok (s t : SortedSet) (hs : s.Invariant) :
    s.and_ t = Except.ok
      (SortedSet.ofList (t.items.filter fun v => decide (v ∈ s.items))) := by
  rw [SortedSet.and_,
    exceptFilter_eq _ (fun v => decide (v ∈ s.items)) _
      (fun v _ => contains_ok s hs v)]
  rfl

theorem sub_ok (s t : SortedSet) (ht : t.Invariant) :
    s.sub t = Except.ok
      (SortedSet.ofList (s.items.filter fun v => !decide (v ∈ t.items))) := by
  rw [SortedSet.sub,
    exceptFilter_eq _ (fun v => !decide (v ∈ t.items)) _
      (fun v _ => by rw [contains_ok t ht v]; rfl)]
  rfl

theorem mem_or_ (s t : SortedSet) (x : Int) :
    x ∈ (s.or_ t).items ↔ x ∈ s.items ∨ x ∈ t.items := by
  rw [SortedSet.or_, mem_ofList, List.mem_append]

theorem xor_ok (s t : SortedSet) (hs : s.Invariant) (ht : t.Invariant) :
    s.xor_ t = Except.ok
      ((SortedSet.ofList (s.items.filter fun v => !decide (v ∈ t.items))).or_
       (SortedSet.ofList (t.items.filter fun v => !decide (v ∈ s.items)))) := by
  rw [SortedSet.xor_, sub_ok s t ht, sub_ok t s hs]
  rfl

theorem le_eq (s t : SortedSet) (ht : t.Invariant) :
    s.le t = Except.ok
      (if s.items.length > t.items.length then false
       else s.items.all fun v => decide (v ∈ t.items)) := by
  rw [SortedSet.le]
  by_cases hlen : s.items.length > t.items.length
  · rw [if_pos hlen, if_pos hlen]
  · rw [if_neg hlen, if_neg hlen,
      exceptAll_eq _ (fun v => decide (v ∈ t.items)) _
        (fun v _ => contains_ok t ht v)]

theorem ge_eq (s t : SortedSet) (hs : s.Invariant) :
    s.ge t = Except.ok
      (if s.items.length < t.items.length then false
       else t.items.all fun v => decide (v ∈ s.items)) := by
  rw [SortedSet.ge]
  by_cases hlen : s.items.length < t.items.length
  · rw [if_pos hlen, if_pos hlen]
  · rw [if_neg hlen, if_neg hlen,
      exceptAll_eq _ (fun v => decide (v ∈ s.items)) _
        (fun v _ => contains_ok s hs v)]

theorem le_ok_true_iff (s t : SortedSet) (hs : s.Invariant) (ht : t.Invariant) :
    s.le t = Except.ok true ↔ ∀ x ∈ s.items, x ∈ t.items := by
  rw [le_eq s t ht]
  constructor
  · intro h
    by_cases hlen : s.items.length > t.items.length
    · rw [if_pos hlen] at h
      exact absurd (Except.ok.inj h) (by simp)
    · rw [if_neg hlen] at h
      have := Except.ok.inj h
      intro x hx
      have := List.all_eq_true.mp this x hx
      exact of_decide_eq_true this
  · intro hsub
    have hlen : s.items.length ≤ t.items.length :=
      nodup_length_le_of_subset s.items t.items (invariant_nodup s hs) hsub
    rw [if_neg (by omega)]
    congr 1
    rw [List.all_eq_true]
    intro x hx
    exact decide_eq_true (hsub x hx)

theorem ge_ok_true_iff (s t : SortedSet) (hs : s.Invariant) (ht : t.Invariant) :
    s.ge t = Except.ok true ↔ ∀ x ∈ t.items, x ∈ s.items := by
  rw [ge_eq s t hs]
  constructor
  · intro h
    by_cases hlen : s.items.length < t.items.length
    · rw [if_pos hlen] at h
      exact absurd (Except.ok.inj h) (by simp)
    · rw [if_neg hlen] at h
      have := Except.ok.inj h
      intro x hx
      have := List.all_eq_true.mp this x hx
      exact of_decide_eq_true this
  · intro hsub
    have hlen : t.items.length ≤ s.items.length :=
      nodup_length_le_of_subset t.items s.items (invariant_nodup t ht) hsub
    rw [if_neg (by omega)]
    congr 1
    rw [List.all_eq_true]
    intro x hx
    exact decide_eq_true (hsub x hx)

/-- A reachable `SortedSet` is determined by its member set. -/
theorem invariant_eq_of_mem_iff (s t : SortedSet) (hs : s.Invariant)
    (ht : t.Invariant) (h : ∀ x, x ∈ s.items ↔ x ∈ t.items) : s = t := by
  cases s; cases t
  have := pairwise_eq_of_mem_iff hs ht h
  simpa using this

theorem isdisjoint_eq (s : SortedSet) (hs : s.Invariant) (other : List Int) :
    s.isdisjoint other = Except.ok (other.all fun v => !decide (v ∈ s.items)) := by
  rw [SortedSet.isdisjoint,
    exceptAll_eq _ (fun v => !decide (v ∈ s.items)) _
      (fun v _ => by rw [contains_ok s hs v]; rfl)]

/-- Mutual inclusion follows from one inclusion and a length bound, for
canonical representations. -/
theorem subset_eq_of_length_le (s t : SortedSet) (hs : s.Invariant)
    (ht : t.Invariant) (hsub : ∀ x ∈ s.items, x ∈ t.items)
    (hlen : t.items.length ≤ s.items.length) : s = t := by
  apply invariant_eq_of_mem_iff s t hs ht
  intro x
  refine ⟨fun hx => hsub x hx, fun hx => ?_⟩
  have h1 : s.items.toFinset ⊆ t.items.toFinset := by
    intro y hy
    rw [List.mem_toFinset] at hy ⊢
    exact hsub y hy
  have h2 : t.items.toFinset.card ≤ s.items.toFinset.card := by
    rw [List.toFinset_card_of_nodup (invariant_nodup s hs),
      List.toFinset_card_of_nodup (invariant_nodup t ht)]
    exact hlen
  have h3 := Finset.eq_of_subset_of_card_le h1 h2
  rw [← List.mem_toFinset, ← h3, List.mem_toFinset] at hx
  exact hx

theorem take_clamp (l : List Int) (m n : Nat) (h : l.length ≤ n) :
    l.take (min m n) = l.take m := by
  rcases le_total m n with h2 | h2
  · rw [min_eq_left h2]
  · rw [min_eq_right h2, List.take_of_length_le h,
      List.take_of_length_le (le_trans h h2)]

theorem drop_clamp (l : List Int) (m n : Nat) (h : l.length ≤ n) :
    l.drop (min m n) = l.drop m := by
  rcases le_total m n with h2 | h2
  · rw [min_eq_left h2]
  · rw [min_eq_right h2, List.drop_eq_nil_of_le h,
      List.drop_eq_nil_of_le (le_trans h h2)]

theorem pySliceIndex_natCast (n dflt m : Nat) :
    pySliceIndex n dflt (some (m : Int)) = min m n := by
  rw [pySliceIndex, if_neg (by omega)]
  omega

/-! ### The claims -/

/-- C1: every `SortedSet` reachable through the public interface — built by
the constructor from any finite input (including the no-argument case) or
returned by any operation — has a stored items sequence that is strictly
ascending: for all valid `i`, `items[i] < items[i+1]`. -/
theorem C1_reachable_sorted (s : SortedSet) (h : s.Reachable) :
    s.items.Chain' (· < ·) := by
  rw [List.chain'_iff_pairwise]
  induction h with
  | empty => exact empty_invariant
  | ofList l => exact ofList_invariant l
  | add s rhs u hs hadd ih =>
    cases rhs with
    | sset t =>
      rw [SortedSet.add] at hadd
      obtain rfl := Except.ok.inj hadd
      exact ofList_invariant _
    | plist l => simp [SortedSet.add] at hadd
  | mul s n hs ih =>
    rw [SortedSet.mul]
    split
    · exact ih
    · exact empty_invariant
  | rmul s n hs ih =>
    rw [SortedSet.rmul, SortedSet.mul]
    split
    · exact ih
    · exact empty_invariant
  | and_ s t u hs ht hop ihs iht =>
    rw [and_ok s t ihs] at hop
    obtain rfl := Except.ok.inj hop
    exact ofList_invariant _
  | or_ s t hs ht ihs iht => exact ofList_invariant _
  | sub s t u hs ht hop ihs iht =>
    rw [sub_ok s t iht] at hop
    obtain rfl := Except.ok.inj hop
    exact ofList_invariant _
  | xor_ s t u hs ht hop ihs iht =>
    rw [xor_ok s t ihs iht] at hop
    obtain rfl := Except.ok.inj hop
    exact ofList_invariant _
  | intersection s other u hs hop ih =>
    rw [SortedSet.intersection, and_ok s _ ih] at hop
    obtain rfl := Except.ok.inj hop
    exact ofList_invariant _
  | union s other hs ih => exact ofList_invariant _
  | symmetric_difference s other u hs hop ih =>
    rw [SortedSet.symmetric_difference,
      xor_ok s _ ih (ofList_invariant other)] at hop
    obtain rfl := Except.ok.inj hop
    exact ofList_invariant _
  | difference s other u hs hop ih =>
    rw [SortedSet.difference, sub_ok s _ (ofList_invariant other)] at hop
    obtain rfl := Except.ok.inj hop
    exact ofList_invariant _

/-- C1 witness: the set constructed from a concrete unsorted input is
strictly ascending. -/
theorem C1_reachable_sorted_witness :
    (SortedSet.ofList [7, 8, 3, 14, 21, 35]).items.Chain' (· < ·) :=
  C1_reachable_sorted _ (SortedSet.Reachable.ofList _)

/-- C2 counterexample: concatenating a `SortedSet` with a plain list — a
finite iterable that is not a `SortedSet` — does not succeed: `__add__`
reads `rhs._items` and raises `AttributeError`. -/
theorem C2_counterexample :
    (SortedSet.ofList [1, 2, 3]).add (PyObj.plist [3, 4, 5]) =
      Except.error PyErr.attributeError := rfl

/-- C2 (amended): for every `SortedSet` `S` and every other `SortedSet`
operand, `S + other` succeeds and produces a `SortedSet` whose elements
are exactly those present in `S` or in `other`; neither operand is mutated
(the operation is a pure function of both).  A non-`SortedSet` iterable
operand instead raises `AttributeError`. -/
theorem C2_add_union (s t : SortedSet) :
    ∃ u, s.add (PyObj.sset t) = Except.ok u ∧
      ∀ x, x ∈ u.items ↔ (x ∈ s.items ∨ x ∈ t.items) := by
  refine ⟨SortedSet.ofList (s.items ++ t.items), rfl, fun x => ?_⟩
  rw [mem_ofList, List.mem_append]

/-- C3: equality compares the `items` sequences element-wise between two
`SortedSet`s, is reflexive, and comparison with a value of a different
type yields false (and `!=` yields true) without raising. -/
theorem C3_equality (s t : SortedSet) (l : List Int) :
    (s.eqPy (PyObj.sset t) = true ↔ s.items = t.items) ∧
    s.eqPy (PyObj.sset s) = true ∧
    s.eqPy (PyObj.plist l) = false ∧
    s.nePy (PyObj.plist l) = true := by
  refine ⟨?_, ?_, rfl, rfl⟩
  · rw [SortedSet.eqPy]
    exact decide_eq_true_iff
  · rw [SortedSet.eqPy]
    exact decide_eq_true rfl

/-- C6: a positive repeat count returns the set unchanged, a zero or
negative repeat count returns the empty set, and repetition from the left
equals repetition from the right. -/
theorem C6_repetition (s : SortedSet) (n : Int) :
    (0 < n → s.mul n = s) ∧ (n ≤ 0 → s.mul n = SortedSet.empty) ∧
    s.rmul n = s.mul n := by
  refine ⟨fun h => ?_, fun h => ?_, rfl⟩
  · rw [SortedSet.mul, if_pos h]
  · rw [SortedSet.mul, if_neg (by omega)]

/-- C6 witness: repeating a concrete set 100 times returns it unchanged. -/
theorem C6_repetition_witness :
    (SortedSet.ofList [4, 5, 6]).mul 100 = SortedSet.ofList [4, 5, 6] :=
  (C6_repetition (SortedSet.ofList [4, 5, 6]) 100).1 (by decide)

/-- C9: slicing returns a plain list with half-open range semantics —
`start` defaults to 0, `stop` defaults to the length, the result is the
elements at positions `start` (inclusive) through `stop` (exclusive), and
out-of-range bounds are clamped rather than raising. -/
theorem C9_slice (s : SortedSet) (start stop : Nat) :
    s.slice none none = s.items ∧
    s.slice (some (start : Int)) none = s.items.drop start ∧
    s.slice none (some (stop : Int)) = s.items.take stop ∧
    s.slice (some (start : Int)) (some (stop : Int)) =
      (s.items.take stop).drop start := by
  refine ⟨?_, ?_, ?_, ?_⟩
  · rw [SortedSet.slice]
    show (s.items.take (pySliceIndex s.items.length s.items.length none)).drop
      (pySliceIndex s.items.length 0 none) = s.items
    rw [pySliceIndex, pySliceIndex, List.take_length, List.drop_zero]
  · rw [SortedSet.slice]
    show (s.items.take (pySliceIndex s.items.length s.items.length none)).drop
      (pySliceIndex s.items.length 0 (some (start : Int))) = s.items.drop start
    rw [pySliceIndex, pySliceIndex_natCast, List.take_length,
      drop_clamp s.items start s.items.length (le_refl _)]
  · rw [SortedSet.slice]
    show (s.items.take (pySliceIndex s.items.length s.items.length
      (some (stop : Int)))).drop (pySliceIndex s.items.length 0 none) =
      s.items.take stop
    rw [pySliceIndex, pySliceIndex_natCast, List.drop_zero,
      take_clamp s.items stop s.items.length (le_refl _)]
  · rw [SortedSet.slice]
    show (s.items.take (pySliceIndex s.items.length s.items.length
      (some (stop : Int)))).drop (pySliceIndex s.items.length 0
      (some (start : Int))) = (s.items.take stop).drop start
    rw [pySliceIndex_natCast, pySliceIndex_natCast,
      take_clamp s.items stop s.items.length (le_refl _),
      drop_clamp (s.items.take stop) start s.items.length
        (by simp [List.length_take])]

/-- C10: concatenation of two `SortedSet`s is commutative, both sides being
the `SortedSet` of elements present in either operand. -/
theorem C10_add_comm (s t : SortedSet) :
    ∃ u, s.add (PyObj.sset t) = Except.ok u ∧
      t.add (PyObj.sset s) = Except.ok u ∧
      ∀ x, x ∈ u.items ↔ (x ∈ s.items ∨ x ∈ t.items) := by
  refine ⟨SortedSet.ofList (s.items ++ t.items), rfl, ?_,
    fun x => by rw [mem_ofList, List.mem_append]⟩
  rw [SortedSet.add]
  congr 1
  apply invariant_eq_of_mem_iff _ _ (ofList_invariant _) (ofList_invariant _)
  intro x
  rw [mem_ofList, mem_ofList, List.mem_append, List.mem_append]
  tauto

/-- C4: for a `SortedSet` satisfying the sortedness invariant, `index`
returns the position holding `x` when `x` is present and raises
`ValueError` (`NotFound`) exactly when absent; the membership test returns
true iff `x` equals some stored element and never propagates the error;
`count` returns 1 when present and 0 otherwise, never propagating the
error. -/
theorem C4_index_contains_count (s : SortedSet) (h : s.Invariant) (x : Int) :
    (x ∈ s.items →
      s.index x = Except.ok (bisect_left s.items x) ∧
      s.items.getD (bisect_left s.items x) 0 = x) ∧
    (x ∉ s.items → s.index x = Except.error PyErr.valueError) ∧
    s.contains x = Except.ok (decide (x ∈ s.items)) ∧
    s.count x = Except.ok (if x ∈ s.items then 1 else 0) :=
  ⟨index_ok_of_mem s h x, index_error_of_not_mem s h x,
    contains_ok s h x, count_ok s h x⟩

/-- C4 witness: evaluates `index`, `contains` and `count` at the spec's
concrete scenario `SortedSet([1,5,8,9])` with item 8. -/
theorem C4_index_contains_count_witness :
    ((8 : Int) ∈ (SortedSet.ofList [1, 5, 8, 9]).items →
      (SortedSet.ofList [1, 5, 8, 9]).index 8 =
        Except.ok (bisect_left (SortedSet.ofList [1, 5, 8, 9]).items 8) ∧
      (SortedSet.ofList [1, 5, 8, 9]).items.getD
        (bisect_left (SortedSet.ofList [1, 5, 8, 9]).items 8) 0 = 8) ∧
    ((8 : Int) ∉ (SortedSet.ofList [1, 5, 8, 9]).items →
      (SortedSet.ofList [1, 5, 8, 9]).index 8 = Except.error PyErr.valueError) ∧
    (SortedSet.ofList [1, 5, 8, 9]).contains 8 =
      Except.ok (decide ((8 : Int) ∈ (SortedSet.ofList [1, 5, 8, 9]).items)) ∧
    (SortedSet.ofList [1, 5, 8, 9]).count 8 =
      Except.ok (if (8 : Int) ∈ (SortedSet.ofList [1, 5, 8, 9]).items then 1 else 0) :=
  C4_index_contains_count (SortedSet.ofList [1, 5, 8, 9]) (by decide) 8

/-- C5: positional access returns the element at forward position `i` for
`0 <= i < n`, the element at position `n + i` for `-n <= i < 0`, and
raises `IndexError` (`IndexOutOfRange`) exactly when `i >= n` or
`i < -n`. -/
theorem C5_getitem (s : SortedSet) (i : Int) :
    (0 ≤ i → i < (s.items.length : Int) →
      s.getitem_int i = Except.ok (s.items.getD i.toNat 0)) ∧
    (i < 0 → -(s.items.length : Int) ≤ i →
      s.getitem_int i =
        Except.ok (s.items.getD (i + (s.items.length : Int)).toNat 0)) ∧
    ((s.items.length : Int) ≤ i ∨ i < -(s.items.length : Int) →
      s.getitem_int i = Except.error PyErr.indexError) := by
  refine ⟨fun h1 h2 => ?_, fun h1 h2 => ?_, fun h => ?_⟩
  · rw [SortedSet.getitem_int]
    show (if 0 ≤ (if i < 0 then i + (s.items.length : Int) else i) ∧
        (if i < 0 then i + (s.items.length : Int) else i) <
          (s.items.length : Int) then
      Except.ok (s.items.getD (if i < 0 then i + (s.items.length : Int)
        else i).toNat 0) else Except.error PyErr.indexError) = _
    rw [if_neg (show ¬ i < 0 by omega),
      if_pos (show 0 ≤ i ∧ i < (s.items.length : Int) from ⟨h1, h2⟩)]
  · rw [SortedSet.getitem_int]
    show (if 0 ≤ (if i < 0 then i + (s.items.length : Int) else i) ∧
        (if i < 0 then i + (s.items.length : Int) else i) <
          (s.items.length : Int) then
      Except.ok (s.items.getD (if i < 0 then i + (s.items.length : Int)
        else i).toNat 0) else Except.error PyErr.indexError) = _
    rw [if_pos h1,
      if_pos (show 0 ≤ i + (s.items.length : Int) ∧
        i + (s.items.length : Int) < (s.items.length : Int) by omega)]
  · rw [SortedSet.getitem_int]
    show (if 0 ≤ (if i < 0 then i + (s.items.length : Int) else i) ∧
        (if i < 0 then i + (s.items.length : Int) else i) <
          (s.items.length : Int) then
      Except.ok (s.items.getD (if i < 0 then i + (s.items.length : Int)
        else i).toNat 0) else Except.error PyErr.indexError) = _
    rcases h with h | h
    · rw [if_neg (show ¬ i < 0 by omega),
        if_neg (show ¬ (0 ≤ i ∧ i < (s.items.length : Int)) by omega)]
    · rw [if_pos (show i < 0 by omega),
        if_neg (show ¬ (0 ≤ i + (s.items.length : Int) ∧
          i + (s.items.length : Int) < (s.items.length : Int)) by omega)]

/-- C5 witness: backward index `-1` on the spec's concrete scenario
`SortedSet([1,4,9,13,15])` resolves to the last position. -/
theorem C5_getitem_witness :
    (SortedSet.ofList [1, 4, 9, 13, 15]).getitem_int (-1) =
      Except.ok ((SortedSet.ofList [1, 4, 9, 13, 15]).items.getD
        ((-1 : Int) +
          ((SortedSet.ofList [1, 4, 9, 13, 15]).items.length : Int)).toNat 0) :=
  (C5_getitem (SortedSet.ofList [1, 4, 9, 13, 15]) (-1)).2.1 (by decide) (by decide)

theorem mem_filter_mem (l m : List Int) (x : Int) :
    x ∈ l.filter (fun v => decide (v ∈ m)) ↔ x ∈ l ∧ x ∈ m := by
  rw [List.mem_filter]
  simp

theorem mem_filter_not_mem (l m : List Int) (x : Int) :
    x ∈ l.filter (fun v => !decide (v ∈ m)) ↔ x ∈ l ∧ x ∉ m := by
  rw [List.mem_filter]
  simp

/-- C7: membership in `union`, `intersection`, `difference` and
`symmetric_difference` is characterised element-wise, and `isdisjoint`
returns true iff the intersection is empty. -/
theorem C7_set_algebra (s : SortedSet) (h : s.Invariant) (other : List Int)
    (x : Int) :
    (x ∈ (s.union other).items ↔ (x ∈ s.items ∨ x ∈ other)) ∧
    (∃ u, s.intersection other = Except.ok u ∧
      (x ∈ u.items ↔ (x ∈ s.items ∧ x ∈ other))) ∧
    (∃ u, s.difference other = Except.ok u ∧
      (x ∈ u.items ↔ (x ∈ s.items ∧ x ∉ other))) ∧
    (∃ u, s.symmetric_difference other = Except.ok u ∧
      (x ∈ u.items ↔ ((x ∈ s.items ∧ x ∉ other) ∨ (x ∈ other ∧ x ∉ s.items)))) ∧
    (∃ u, s.intersection other = Except.ok u ∧
      (s.isdisjoint other = Except.ok true ↔ u.items = [])) := by
  refine ⟨?_, ?_, ?_, ?_, ?_⟩
  · rw [SortedSet.union, mem_or_, mem_ofList]
  · rw [SortedSet.intersection, and_ok s _ h]
    refine ⟨_, rfl, ?_⟩
    rw [mem_ofList, mem_filter_mem, mem_ofList]
    tauto
  · rw [SortedSet.difference, sub_ok s _ (ofList_invariant other)]
    refine ⟨_, rfl, ?_⟩
    rw [mem_ofList, mem_filter_not_mem, mem_ofList]
  · rw [SortedSet.symmetric_difference, xor_ok s _ h (ofList_invariant other)]
    refine ⟨_, rfl, ?_⟩
    simp only [mem_or_, mem_ofList, mem_filter_not_mem]
  · rw [SortedSet.intersection, and_ok s _ h]
    refine ⟨_, rfl, ?_⟩
    rw [isdisjoint_eq s h other]
    constructor
    · intro hok
      have hall := List.all_eq_true.mp (Except.ok.inj hok)
      rw [List.eq_nil_iff_forall_not_mem]
      intro y hy
      rw [mem_ofList, mem_filter_mem, mem_ofList] at hy
      have hb := hall y hy.1
      simp only [Bool.not_eq_true', decide_eq_false_iff_not] at hb
      exact hb hy.2
    · intro hnil
      congr 1
      rw [List.all_eq_true]
      intro y hy
      simp only [Bool.not_eq_true', decide_eq_false_iff_not]
      intro hys
      have hmem : y ∈ (SortedSet.ofList ((SortedSet.ofList other).items.filter
          fun v => decide (v ∈ s.items))).items := by
        rw [mem_ofList, mem_filter_mem, mem_ofList]
        exact ⟨hy, hys⟩
      rw [hnil] at hmem
      exact absurd hmem (List.not_mem_nil y)

/-- C7 witness: evaluates the set algebra at the spec's concrete scenario
`SortedSet([1,2,3])` against `[2,3,4]` with element 2. -/
theorem C7_set_algebra_witness :
    ((2 : Int) ∈ ((SortedSet.ofList [1, 2, 3]).union [2, 3, 4]).items ↔
      ((2 : Int) ∈ (SortedSet.ofList [1, 2, 3]).items ∨ (2 : Int) ∈ [2, 3, 4])) ∧
    (∃ u, (SortedSet.ofList [1, 2, 3]).intersection [2, 3, 4] = Except.ok u ∧
      ((2 : Int) ∈ u.items ↔
        ((2 : Int) ∈ (SortedSet.ofList [1, 2, 3]).items ∧ (2 : Int) ∈ [2, 3, 4]))) ∧
    (∃ u, (SortedSet.ofList [1, 2, 3]).difference [2, 3, 4] = Except.ok u ∧
      ((2 : Int) ∈ u.items ↔
        ((2 : Int) ∈ (SortedSet.ofList [1, 2, 3]).items ∧ (2 : Int) ∉ [2, 3, 4]))) ∧
    (∃ u, (SortedSet.ofList [1, 2, 3]).symmetric_difference [2, 3, 4] = Except.ok u ∧
      ((2 : Int) ∈ u.items ↔
        (((2 : Int) ∈ (SortedSet.ofList [1, 2, 3]).items ∧ (2 : Int) ∉ [2, 3, 4]) ∨
         ((2 : Int) ∈ [2, 3, 4] ∧ (2 : Int) ∉ (SortedSet.ofList [1, 2, 3]).items)))) ∧
    (∃ u, (SortedSet.ofList [1, 2, 3]).intersection [2, 3, 4] = Except.ok u ∧
      ((SortedSet.ofList [1, 2, 3]).isdisjoint [2, 3, 4] = Except.ok true ↔
        u.items = [])) :=
  C7_set_algebra (SortedSet.ofList [1, 2, 3]) (by decide) [2, 3, 4] 2

/-- C8: `issubset` is true iff every element of the set lies in the other
iterable, `issuperset` is the mirror image (both non-strict and total),
and the strict relations hold iff the non-strict relation holds and the
operands differ. -/
theorem C8_subset_superset (s t : SortedSet) (hs : s.Invariant)
    (ht : t.Invariant) (other : List Int) :
    (∃ b, s.issubset other = Except.ok b) ∧
    (s.issubset other = Except.ok true ↔ ∀ x ∈ s.items, x ∈ other) ∧
    (∃ b, s.issuperset other = Except.ok b) ∧
    (s.issuperset other = Except.ok true ↔ ∀ x ∈ other, x ∈ s.items) ∧
    (s.lt t = Except.ok true ↔ (s.le t = Except.ok true ∧ s ≠ t)) ∧
    (s.gt t = Except.ok true ↔ (s.ge t = Except.ok true ∧ s ≠ t)) := by
  refine ⟨?_, ?_, ?_, ?_, ?_, ?_⟩
  · rw [SortedSet.issubset, le_eq s _ (ofList_invariant other)]
    exact ⟨_, rfl⟩
  · rw [SortedSet.issubset, le_ok_true_iff s _ hs (ofList_invariant other)]
    constructor
    · exact fun hsub x hx => (mem_ofList other x).mp (hsub x hx)
    · exact fun hsub x hx => (mem_ofList other x).mpr (hsub x hx)
  · rw [SortedSet.issuperset, ge_eq s _ hs]
    exact ⟨_, rfl⟩
  · rw [SortedSet.issuperset, ge_ok_true_iff s _ hs (ofList_invariant other)]
    constructor
    · exact fun hsub x hx => hsub x ((mem_ofList other x).mpr hx)
    · exact fun hsub x hx => hsub x ((mem_ofList other x).mp hx)
  · constructor
    · intro hlt
      rw [SortedSet.lt] at hlt
      by_cases hlen : s.items.length < t.items.length
      · rw [if_pos hlen] at hlt
        refine ⟨hlt, fun heq => ?_⟩
        subst heq
        omega
      · rw [if_neg hlen] at hlt
        simp at hlt
    · rintro ⟨hle, hne⟩
      have hsub := (le_ok_true_iff s t hs ht).mp hle
      rcases Nat.lt_or_ge s.items.length t.items.length with hlen | hlen
      · rw [SortedSet.lt, if_pos hlen]
        exact hle
      · exact absurd (subset_eq_of_length_le s t hs ht hsub (by omega)) hne
  · constructor
    · intro hgt
      rw [SortedSet.gt] at hgt
      by_cases hlen : s.items.length > t.items.length
      · rw [if_pos hlen] at hgt
        refine ⟨hgt, fun heq => ?_⟩
        subst heq
        omega
      · rw [if_neg hlen] at hgt
        simp at hgt
    · rintro ⟨hge, hne⟩
      have hsub := (ge_ok_true_iff s t hs ht).mp hge
      rcases Nat.lt_or_ge t.items.length s.items.length with hlen | hlen
      · rw [SortedSet.gt, if_pos hlen]
        exact hge
      · exact absurd (subset_eq_of_length_le t s ht hs hsub (by omega)).symm hne

/-- C8 witness: evaluates the subset and superset relations at the spec's
concrete scenario, a proper subset pair. -/
theorem C8_subset_superset_witness :
    (∃ b, (SortedSet.ofList [1, 2]).issubset [1, 2, 3] = Except.ok b) ∧
    ((SortedSet.ofList [1, 2]).issubset [1, 2, 3] = Except.ok true ↔
      ∀ x ∈ (SortedSet.ofList [1, 2]).items, x ∈ [1, 2, 3]) ∧
    (∃ b, (SortedSet.ofList [1, 2]).issuperset [1, 2, 3] = Except.ok b) ∧
    ((SortedSet.ofList [1, 2]).issuperset [1, 2, 3] = Except.ok true ↔
      ∀ x ∈ [1, 2, 3], x ∈ (SortedSet.ofList [1, 2]).items) ∧
    ((SortedSet.ofList [1, 2]).lt (SortedSet.ofList [1, 2, 3]) = Except.ok true ↔
      ((SortedSet.ofList [1, 2]).le (SortedSet.ofList [1, 2, 3]) = Except.ok true ∧
        SortedSet.ofList [1, 2] ≠ SortedSet.ofList [1, 2, 3])) ∧
    ((SortedSet.ofList [1, 2]).gt (SortedSet.ofList [1, 2, 3]) = Except.ok true ↔
      ((SortedSet.ofList [1, 2]).ge (SortedSet.ofList [1, 2, 3]) = Except.ok true ∧
        SortedSet.ofList [1, 2] ≠ SortedSet.ofList [1, 2, 3])) :=
  C8_subset_superset (SortedSet.ofList [1, 2]) (SortedSet.ofList [1, 2, 3])
    (by decide) (by decide) [1, 2, 3]
